import Mathlib

/-!
Verification of the response-acquisition core of `notebooklm-mcp-structured`.

The embedding models `src/utils/page-utils.ts` (functions `hashString`,
`extractLatestText`, `waitForLatestAnswer`) shallowly: page texts are lists
of characters (JavaScript strings), page interactions that may throw are
`Except Unit` values supplied per poll tick, and the polling loop is a fold
over a finite list of tick inputs (the ticks that fit before the deadline).
The connection-readiness gate is embedded from `connection-checker.ts`
(whose source is included in `docs/troubleshooting.md`).  Components the
spec describes but whose code is not in `src/` (`SessionRegistry`, the
configuration default for the stability threshold) are modelled from the
spec and marked as such.
-/

set_option maxHeartbeats 1000000

namespace NotebookLM

/-- JavaScript string, modelled as a list of characters. -/
abbrev Str := List Char

/-- Whitespace predicate used by `String.prototype.trim`. -/
def jsWhitespace (c : Char) : Bool := c.isWhitespace

/-- JavaScript `s.trim()`: drop whitespace from both ends (right end first,
via a double reversal, then the left end). -/
def trim (s : Str) : Str :=
  List.dropWhile jsWhitespace ((List.dropWhile jsWhitespace s.reverse).reverse)

/-- JavaScript `s.toLowerCase()`, character by character. -/
def toLowerStr (s : Str) : Str := s.map Char.toLower

/-- UTF-16 code units of one character, as produced by `charCodeAt`. -/
def charUtf16 (c : Char) : List Nat :=
  let n := c.toNat
  if n < 65536 then [n]
  else [55296 + (n - 65536) / 1024, 56320 + (n - 65536) % 1024]

/-- UTF-16 code-unit sequence of a JavaScript string. -/
def utf16Units (s : Str) : List Nat := (s.map charUtf16).flatten

/-- JavaScript `ToInt32` coercion: reduce an integer into `[-2^31, 2^31)`. -/
def toInt32 (n : Int) : Int := (n + 2147483648) % 4294967296 - 2147483648

/-- One iteration of the djb2-variant hash loop in `hashString`
(`page-utils.ts` lines 50-54): `hash = (hash << 5) - hash + char` followed by
`hash = hash & hash` (the 32-bit coercion).  The JavaScript `<<` coerces its
result to 32 bits, hence the inner `toInt32` of `h * 32`. -/
def hashStep (h : Int) (c : Nat) : Int := toInt32 (toInt32 (h * 32) - h + (c : Int))

/-- Function `hashString` from `page-utils.ts` lines 48-56: fold `hashStep` over the
UTF-16 code units, starting from 0. -/
def hashString (s : Str) : Int := (utf16Units s).foldl hashStep 0

/-- JavaScript `Set.add` on the known-hash set: insert if absent (order immaterial;
JavaScript `Set` keeps distinct elements, so length is the set's `size`). -/
def insertHash (known : List Int) (h : Int) : List Int :=
  if h ∈ known then known else known ++ [h]

/-- Result of querying one primary response container on a tick:
`.error` if the text-element lookup or `innerText` threw, `.ok none` if the
container has no `.message-text-content` element, `.ok (some t)` its text. -/
abbrev ContainerRead := Except Unit (Option Str)

/-- Input to one invocation of `extractLatestText`: the primary container
query (which may throw), the per-selector fallback element reads, and the
final `page.evaluate` result. -/
structure ExtractInput where
  primary : Except Unit (List ContainerRead)
  fallbackSelectors : List (Except Unit (List (Except Unit Str)))
  jsEval : Except Unit (Option Str)

/-- The scan over primary containers (`page-utils.ts` lines 316-340): in
document order, skip containers whose read threw, has no text element, or
whose text trims to empty; return the first trimmed text whose hash is not
in `knownHashes`, skipping known ones. -/
def scanPrimary (known : List Int) : List ContainerRead → Option Str
  | [] => none
  | c :: rest =>
    match c with
    | .ok (some t) =>
      if trim t = [] then scanPrimary known rest
      else if hashString (trim t) ∈ known then scanPrimary known rest
      else some (trim t)
    | _ => scanPrimary known rest

/-- The inner element scan of the fallback-selectors path
(`page-utils.ts` lines 369-395): first element whose final text (container
or element `innerText`) is nonempty after trimming and whose hash is new. -/
def scanElems (known : List Int) : List (Except Unit Str) → Option Str
  | [] => none
  | .error _ :: rest => scanElems known rest
  | .ok t :: rest =>
    if trim t ≠ [] ∧ hashString (trim t) ∉ known then some (trim t)
    else scanElems known rest

/-- The fallback-selectors loop (`page-utils.ts` lines 363-399): selectors
whose element query threw are skipped; the first selector yielding a new
text wins. -/
def scanSelectors (known : List Int) : List (Except Unit (List (Except Unit Str))) → Option Str
  | [] => none
  | .error _ :: rest => scanSelectors known rest
  | .ok elems :: rest =>
    match scanElems known elems with
    | some t => some t
    | none => scanSelectors known rest

/-- The final `page.evaluate` fallback (`page-utils.ts` lines 401-453): an
evaluation error yields nothing; a returned string is trimmed and returned
if nonempty.  Note: this path performs no known-hash check. -/
def jsEvalText : Except Unit (Option Str) → Option Str
  | .ok (some t) => if trim t = [] then none else some (trim t)
  | _ => none

/-- Function `extractLatestText` (`page-utils.ts` lines 283-456).  If the primary
container query succeeds, the early exit returns `null` when the container
count has not grown beyond `knownHashes.size`, otherwise only the primary
scan runs (`return null; // Don't fall through to fallback!`).  The
fallback selectors and the `page.evaluate` fallback run only when the
primary query itself threw. -/
def extractLatestText (inp : ExtractInput) (known : List Int) : Option Str :=
  match inp.primary with
  | .ok containers =>
    if containers.length ≤ known.length then none
    else scanPrimary known containers
  | .error _ =>
    match scanSelectors known inp.fallbackSelectors with
    | some t => some t
    | none => jsEvalText inp.jsEval

/-- Input to one poll tick of `waitForLatestAnswer`: the thinking-indicator
check (`.ok (some b)` = element found with visibility `b`, `.ok none` = no
element, `.error` = the lookup or visibility call threw) and the extraction
input. -/
structure TickInput where
  thinking : Except Unit (Option Bool)
  extract : ExtractInput

/-- Lines 193-204 of `page-utils.ts`: the tick is skipped only when the
thinking element is found and reported visible; a missing element or a
thrown check falls through to extraction. -/
def thinkingVisible : Except Unit (Option Bool) → Bool
  | .ok (some b) => b
  | _ => false

/-- Mutable state of the polling loop in `waitForLatestAnswer`
(`page-utils.ts` lines 171-187): the known-hash set, the last candidate
text, and the stability counter. -/
structure LoopState where
  known : List Int
  lastCandidate : Option Str
  stableCount : Nat

/-- Outcome of one poll tick: return an answer, or continue with a state. -/
inductive TickResult where
  | answer : Str → TickResult
  | next : LoopState → TickResult

/-- The candidate text a tick observes (`page-utils.ts` lines 193-219):
none when the thinking indicator is visible, none when extraction yields
nothing or the candidate trims to empty, else the trimmed candidate. -/
def tickCandidate (st : LoopState) (t : TickInput) : Option Str :=
  if thinkingVisible t.thinking then none
  else
    match extractLatestText t.extract st.known with
    | none => none
    | some candidate =>
      if trim candidate = [] then none else some (trim candidate)

/-- Processing of a nonempty trimmed candidate (`page-utils.ts` lines
220-260): the question echo marks its hash known and continues without
touching `lastCandidate`/`stableCount`; otherwise the stability machine
increments on a repeat and resets to 1 on a change, returning the candidate
once `stableCount` reaches `requiredStablePolls`. -/
def stepCandidate (requiredStablePolls : Nat) (sanitizedQuestion : Str)
    (st : LoopState) (normalized : Str) : TickResult :=
  if toLowerStr normalized = sanitizedQuestion then
    .next { st with known := insertHash st.known (hashString normalized) }
  else if st.lastCandidate = some normalized then
    if st.stableCount + 1 ≥ requiredStablePolls then .answer normalized
    else .next { st with stableCount := st.stableCount + 1 }
  else
    if 1 ≥ requiredStablePolls then .answer normalized
    else .next { st with lastCandidate := some normalized, stableCount := 1 }

/-- One full poll tick of `waitForLatestAnswer`. -/
def processTick (rsp : Nat) (q : Str) (st : LoopState) (t : TickInput) : TickResult :=
  match tickCandidate st t with
  | none => .next st
  | some v => stepCandidate rsp q st v

/-- The polling loop (`page-utils.ts` lines 189-270): run ticks until one
answers or the deadline exhausts the tick list (then `null`). -/
def runLoop (rsp : Nat) (q : Str) : LoopState → List TickInput → Option Str
  | _, [] => none
  | st, t :: ts =>
    match processTick rsp q st t with
    | .answer s => some s
    | .next st' => runLoop rsp q st' ts

/-- Seeding of the known-hash set from `ignoreTexts`
(`page-utils.ts` lines 171-176): hash the trimmed text of every nonblank
entry. -/
def initKnown (ignoreTexts : List Str) : List Int :=
  ignoreTexts.foldl
    (fun acc t => if trim t = [] then acc else insertHash acc (hashString (trim t))) []

/-- The sanitized question `question.trim().toLowerCase()` (`page-utils.ts` line 168). -/
def sanitizeQuestion (q : Str) : Str := toLowerStr (trim q)

/-- Initial loop state (`page-utils.ts` lines 171-186). -/
def initState (ignoreTexts : List Str) : LoopState :=
  { known := initKnown ignoreTexts, lastCandidate := none, stableCount := 0 }

/-- Function `waitForLatestAnswer` (`page-utils.ts` lines 149-271), with the tick
inputs the page adapter supplies within the deadline made explicit, and the
stability threshold `rsp` (read from `CONFIG.requiredStablePolls` in the
source) passed as a parameter. -/
def waitForLatestAnswer (question : Str) (ignoreTexts : List Str)
    (rsp : Nat) (ticks : List TickInput) : Option Str :=
  runLoop rsp (sanitizeQuestion question) (initState ignoreTexts) ticks

/-- Modelled from the spec: `CONFIG.requiredStablePolls` lives in
`src/config.ts`, which is not part of the provided sources; the spec fixes
the default stability threshold at 3 ("require the same exact text across N
consecutive polls, default 3"). -/
def requiredStablePollsDefault : Nat := 3

/-- Observation trace of a run: the candidate each executed tick observed,
truncated where the loop returns an answer. -/
def obsList (rsp : Nat) (q : Str) : LoopState → List TickInput → List (Option Str)
  | _, [] => []
  | st, t :: ts =>
    tickCandidate st t ::
      (match processTick rsp q st t with
       | .answer _ => []
       | .next st' => obsList rsp q st' ts)

/-- The last non-echo candidate among a list of observations, starting from
a previous value: what `lastCandidate` holds after those observations. -/
def lastCandAfter (q : Str) (lc : Option Str) (pre : List (Option Str)) : Option Str :=
  pre.foldl
    (fun acc o =>
      match o with
      | none => acc
      | some v => if toLowerStr v = q then acc else some v) lc

/-- The ordered list of texts the primary containers carry, written after
the spec's wording for claim C5 ("scan in document order for the first text
whose content hash is not in knownHashes"): a container contributes its
trimmed text when its read succeeded and the text is nonblank. -/
def visibleContainerText : ContainerRead → Option Str
  | .ok (some t) => if trim t = [] then none else some (trim t)
  | _ => none

/-- First text of a list whose hash is unseen, written after the spec's
wording for claim C5. -/
def firstUnseenText (known : List Int) (texts : List Str) : Option Str :=
  texts.find? (fun t => !(known.contains (hashString t)))

/-! ### ConnectionChecker, embedded from `connection-checker.ts`
(its source is included in `docs/troubleshooting.md`) -/

/-- JavaScript `s.includes(sub)`: contiguous substring test. -/
def strIncludes (sub : Str) : Str → Bool
  | [] => List.isPrefixOf sub []
  | a :: rest => List.isPrefixOf sub (a :: rest) || strIncludes sub rest

/-- `ConnectionCheckResult` from `connection-checker.ts` lines 123-138. -/
structure ConnectionCheckResult where
  isReady : Bool
  authValid : Bool
  chromeRunning : Bool
  message : Str
  requiresUserAction : Bool
  userActionMessage : Option Str
  canAutoAuth : Bool

/-- The value of `process.platform` as `isChromeRunning` distinguishes it
(`win32`, `darwin`, anything else = the Linux branch). -/
inductive Platform where
  | win32 : Platform
  | darwin : Platform
  | linux : Platform

/-- External inputs of one `isChromeRunning()` call: the platform and the
outcome of each `execAsync` probe the branches may run (`.error` = the
command threw, for `tasklist` `.ok stdout` = its standard output, for the
`pgrep` probes `.ok` = a matching process was found — `pgrep` exits
nonzero, i.e. throws, when none is). -/
structure ChromeProbe where
  platform : Platform
  winTasklist : Except Unit Str
  macPgrep : Except Unit Unit
  linuxPgrepChrome : Except Unit Unit
  linuxPgrepChromium : Except Unit Unit

/-- `isChromeRunning` from `connection-checker.ts` lines 164-214.  On
Windows the result is whether the lowercased `tasklist` output contains
`chrome.exe`, and a thrown probe reaches the outer catch, which assumes
Chrome might be running (fail safe to `true`).  On macOS and Linux the
`pgrep` probes sit in inner try/catches whose catch returns `false` (or
tries `chromium` first on Linux), so the outer catch is not reached. -/
def isChromeRunning (p : ChromeProbe) : Bool :=
  match p.platform with
  | .win32 =>
    match p.winTasklist with
    | .ok stdout => strIncludes "chrome.exe".data (toLowerStr stdout)
    | .error _ => true
  | .darwin =>
    match p.macPgrep with
    | .ok _ => true
    | .error _ => false
  | .linux =>
    match p.linuxPgrepChrome with
    | .ok _ => true
    | .error _ =>
      match p.linuxPgrepChromium with
      | .ok _ => true
      | .error _ => false

/-- The user-action message returned while Chrome is running
(`connection-checker.ts` lines 270-280). -/
def closeChromeMessage : Str :=
  ("⚠️ **Autenticazione NotebookLM richiesta**\n\n" ++
   "Per poter procedere, devi prima **chiudere completamente Chrome** " ++
   "(tutte le finestre).\n\n" ++
   "Questo è necessario perché l'autenticazione richiede l'accesso esclusivo " ++
   "al profilo Chrome.\n\n" ++
   "**Cosa fare:**\n" ++
   "1. Chiudi tutte le finestre di Chrome\n" ++
   "2. Conferma qui quando hai finito\n" ++
   "3. Si aprirà una finestra per il login a Google\n\n" ++
   "⏱️ Timeout: 1 minuto").data

/-- `ConnectionChecker.checkConnection` from `connection-checker.ts` lines
238-295, with the two external probes passed explicitly: `authValid` is
`isAuthValid()` (the auth manager holds a non-expired state file) and
`probe` feeds `isChromeRunning()`.  A valid auth state returns ready
without probing Chrome; otherwise a running Chrome blocks on user action
with `canAutoAuth := false`, and a closed Chrome allows auto-auth. -/
def ConnectionChecker.checkConnection (authValid : Bool) (probe : ChromeProbe) :
    ConnectionCheckResult :=
  if authValid then
    { isReady := true, authValid := true, chromeRunning := false,
      message := "Connection ready - authentication is valid".data,
      requiresUserAction := false, userActionMessage := none,
      canAutoAuth := false }
  else if isChromeRunning probe then
    { isReady := false, authValid := false, chromeRunning := true,
      message := "Authentication required but Chrome is running".data,
      requiresUserAction := true, userActionMessage := some closeChromeMessage,
      canAutoAuth := false }
  else
    { isReady := false, authValid := false, chromeRunning := false,
      message := "Authentication required - Chrome is closed, ready for login".data,
      requiresUserAction := false, userActionMessage := none,
      canAutoAuth := true }

/-- `waitForChromeClose` from `connection-checker.ts` lines 308-338, the
poll outcomes within the deadline made explicit: return `true` as soon as
a poll reports Chrome not running, `false` when the deadline exhausts the
polls. -/
def waitForChromeClose : List ChromeProbe → Bool
  | [] => false
  | p :: ps => if !isChromeRunning p then true else waitForChromeClose ps

/-- Modelled from the spec: `Session` (§3); the registry's code is not
among the provided sources. -/
structure Session where
  id : Nat
  targetResourceId : Nat
  createdAt : Nat
  lastActivityAt : Nat
  inFlight : Bool
  deriving DecidableEq

/-- Modelled from the spec: a freshly created session. -/
def mkSession (i tr now : Nat) : Session :=
  { id := i, targetResourceId := tr, createdAt := now,
    lastActivityAt := now, inFlight := false }

/-- Modelled from the spec: the registry's live-session table and its
capacity (§4.2). -/
structure Registry where
  capacity : Nat
  sessions : List Session
  deriving DecidableEq

/-- Least-recently-active session of a list, relative to a starting
candidate (first minimum wins on ties). -/
def minByActivity (a : Session) (l : List Session) : Session :=
  l.foldl (fun b s => if s.lastActivityAt < b.lastActivityAt then s else b) a

/-- Modelled from the spec: the single globally-least-recently-active
evictable session — eviction must not interrupt a session mid-question
(§4.2), so only sessions with no in-flight question qualify. -/
def lraIdle (ss : List Session) : Option Session :=
  match ss.filter (fun s => !s.inFlight) with
  | [] => none
  | a :: rest => some (minByActivity a rest)

/-- Modelled from the spec: `SessionRegistry.resolve` (§4.2, get-or-create).
An existing id is returned as-is; a fresh id is created when under
capacity; at capacity the least-recently-active idle session is evicted
first, and if none is evictable the request fails with a capacity error. -/
def SessionRegistry.resolve (reg : Registry) (i tr now : Nat) :
    Except Unit (Registry × Session) :=
  match reg.sessions.find? (fun s => s.id == i) with
  | some s => .ok (reg, s)
  | none =>
    if reg.sessions.length < reg.capacity then
      .ok ({ reg with sessions := reg.sessions ++ [mkSession i tr now] }, mkSession i tr now)
    else
      match lraIdle reg.sessions with
      | some victim =>
        .ok ({ reg with
                 sessions := (reg.sessions.eraseP (fun s => s.id == victim.id))
                   ++ [mkSession i tr now] },
             mkSession i tr now)
      | none => .error ()

/-! ### Concrete inputs used by witnesses and counterexamples -/

/-- A tick whose thinking check finds no element and whose primary
container query yields one container with a given text. -/
def plainTick (t : Str) : TickInput :=
  { thinking := .ok none,
    extract := { primary := .ok [.ok (some t)], fallbackSelectors := [], jsEval := .ok none } }

/-- Three polls all showing the text `ok`. -/
def sampleTicks : List TickInput :=
  [plainTick "ok".data, plainTick "ok".data, plainTick "ok".data]

/-- The known answer of the spec's C2 scenario. -/
def parisText : Str := "Paris is the capital.".data

/-- A tick on which the primary container query throws, the fallback
selectors find nothing, and the `page.evaluate` fallback reports the
already-known text. -/
def c2Tick : TickInput :=
  { thinking := .ok none,
    extract := { primary := .error (), fallbackSelectors := [], jsEval := .ok (some parisText) } }

/-- A tick whose thinking-indicator check throws while extraction finds a
new text. -/
def busyErrTick : TickInput :=
  { thinking := .error (),
    extract := { primary := .ok [.ok (some "fresh".data)], fallbackSelectors := [], jsEval := .ok none } }

/-- A tick whose primary container query throws while a fallback selector
finds a new text. -/
def primaryErrTick : TickInput :=
  { thinking := .ok none,
    extract := { primary := .error (), fallbackSelectors := [.ok [.ok "fresh".data]], jsEval := .ok none } }

/-- A tick on which the thinking indicator is visible. -/
def thinkingTick : TickInput :=
  { thinking := .ok (some true),
    extract := { primary := .ok [.ok (some "ignored".data)], fallbackSelectors := [], jsEval := .ok none } }

/-- A tick showing an echo of the question `hi`. -/
def echoTick : TickInput :=
  { thinking := .ok none,
    extract := { primary := .ok [.ok (some "hi".data)], fallbackSelectors := [], jsEval := .ok none } }

/-- A probe on which Chrome is detected running (macOS, `pgrep` found a
process). -/
def macChromeRunningProbe : ChromeProbe :=
  { platform := .darwin, winTasklist := .error (), macPgrep := .ok (),
    linuxPgrepChrome := .error (), linuxPgrepChromium := .error () }

/-- Idle sessions and registries for the SessionRegistry witnesses. -/
def sessA : Session := { id := 1, targetResourceId := 0, createdAt := 0, lastActivityAt := 5, inFlight := false }

def sessB : Session := { id := 2, targetResourceId := 0, createdAt := 0, lastActivityAt := 3, inFlight := false }

def busyA : Session := { id := 1, targetResourceId := 0, createdAt := 0, lastActivityAt := 5, inFlight := true }

def busyB : Session := { id := 2, targetResourceId := 0, createdAt := 0, lastActivityAt := 3, inFlight := true }

def regFull : Registry := { capacity := 2, sessions := [sessA, sessB] }

def regBusy : Registry := { capacity := 2, sessions := [busyA, busyB] }

/-! ## Supporting lemmas -/

theorem toInt32_range (n : Int) : -2147483648 ≤ toInt32 n ∧ toInt32 n < 2147483648 := by
  unfold toInt32
  have h1 := Int.emod_nonneg (n + 2147483648) (by decide : (4294967296 : Int) ≠ 0)
  have h2 := Int.emod_lt_of_pos (n + 2147483648) (by decide : (0 : Int) < 4294967296)
  omega

theorem head?_dropWhile {α : Type} {p : α → Bool} {l : List α} {a : α}
    (h : (l.dropWhile p).head? = some a) : p a = false := by
  have hk := List.head?_dropWhile_not p l
  rw [h] at hk
  exact hk

theorem dropWhile_eq_self {α : Type} (p : α → Bool) (l : List α)
    (h : ∀ a, l.head? = some a → p a = false) : l.dropWhile p = l := by
  cases l with
  | nil => rfl
  | cons a l => simp [List.dropWhile_cons, h a rfl]

theorem trim_head_not_ws {s : Str} {a : Char} (h : (trim s).head? = some a) :
    jsWhitespace a = false := head?_dropWhile h

theorem trim_revhead_not_ws {s : Str} {a : Char} (h : (trim s).reverse.head? = some a) :
    jsWhitespace a = false := by
  have hsuf : trim s <:+ (List.dropWhile jsWhitespace s.reverse).reverse :=
    List.dropWhile_suffix _
  have hpre : (trim s).reverse <+: List.dropWhile jsWhitespace s.reverse := by
    have hp := List.reverse_prefix.mpr hsuf
    rwa [List.reverse_reverse] at hp
  obtain ⟨u, hu⟩ := hpre
  have hh : (List.dropWhile jsWhitespace s.reverse).head? = some a := by
    rw [← hu, List.head?_append, h]
    rfl
  exact head?_dropWhile hh

theorem trim_trim (s : Str) : trim (trim s) = trim s := by
  have h1 : List.dropWhile jsWhitespace (trim s).reverse = (trim s).reverse :=
    dropWhile_eq_self _ _ (fun a ha => trim_revhead_not_ws ha)
  show List.dropWhile jsWhitespace ((List.dropWhile jsWhitespace (trim s).reverse).reverse) = trim s
  rw [h1, List.reverse_reverse]
  exact dropWhile_eq_self _ _ (fun a ha => trim_head_not_ws ha)

theorem runLoop_cons (rsp : Nat) (q : Str) (st : LoopState) (t : TickInput) (ts : List TickInput) :
    runLoop rsp q st (t :: ts) =
      (match processTick rsp q st t with
       | .answer s => some s
       | .next st' => runLoop rsp q st' ts) := rfl

theorem obsList_cons (rsp : Nat) (q : Str) (st : LoopState) (t : TickInput) (ts : List TickInput) :
    obsList rsp q st (t :: ts) =
      tickCandidate st t ::
        (match processTick rsp q st t with
         | .answer _ => []
         | .next st' => obsList rsp q st' ts) := rfl

theorem stepCandidate_echo {rsp : Nat} {q v : Str} (st : LoopState) (h : toLowerStr v = q) :
    stepCandidate rsp q st v = .next { st with known := insertHash st.known (hashString v) } := by
  simp [stepCandidate, h]

theorem stepCandidate_answer_inv {rsp : Nat} {q v s : Str} {st : LoopState}
    (h : stepCandidate rsp q st v = .answer s) : s = v ∧ toLowerStr v ≠ q := by
  unfold stepCandidate at h
  by_cases h1 : toLowerStr v = q
  · rw [if_pos h1] at h; cases h
  · rw [if_neg h1] at h
    by_cases h2 : st.lastCandidate = some v
    · rw [if_pos h2] at h
      by_cases h3 : st.stableCount + 1 ≥ rsp
      · rw [if_pos h3] at h; injection h with h4; exact ⟨h4.symm, h1⟩
      · rw [if_neg h3] at h; cases h
    · rw [if_neg h2] at h
      by_cases h3 : 1 ≥ rsp
      · rw [if_pos h3] at h; injection h with h4; exact ⟨h4.symm, h1⟩
      · rw [if_neg h3] at h; cases h

theorem processTick_of_none {rsp : Nat} {q : Str} {st : LoopState} {t : TickInput}
    (h : tickCandidate st t = none) : processTick rsp q st t = .next st := by
  simp [processTick, h]

theorem processTick_of_some {rsp : Nat} {q : Str} {st : LoopState} {t : TickInput} {v : Str}
    (h : tickCandidate st t = some v) : processTick rsp q st t = stepCandidate rsp q st v := by
  simp [processTick, h]

theorem processTick_answer_inv {rsp : Nat} {q s : Str} {st : LoopState} {t : TickInput}
    (h : processTick rsp q st t = .answer s) :
    tickCandidate st t = some s ∧ toLowerStr s ≠ q := by
  cases hc : tickCandidate st t with
  | none => rw [processTick_of_none hc] at h; cases h
  | some v =>
    rw [processTick_of_some hc] at h
    obtain ⟨he, hne⟩ := stepCandidate_answer_inv h
    subst he
    exact ⟨rfl, hne⟩

theorem tickCandidate_some_inv {st : LoopState} {t : TickInput} {v : Str}
    (h : tickCandidate st t = some v) : ∃ cand, v = trim cand ∧ trim cand ≠ [] := by
  unfold tickCandidate at h
  split at h
  · cases h
  · split at h
    · cases h
    · rename_i cand heq
      split at h
      · cases h
      · rename_i ht
        injection h with h'
        exact ⟨cand, h'.symm, ht⟩

theorem runLoop_answer_not_echo {rsp : Nat} {q : Str} :
    ∀ {ticks : List TickInput} {st : LoopState} {ans : Str},
      runLoop rsp q st ticks = some ans → toLowerStr ans ≠ q := by
  intro ticks
  induction ticks with
  | nil => intro st ans h; cases h
  | cons t ts ih =>
    intro st ans h
    rw [runLoop_cons] at h
    cases hp : processTick rsp q st t with
    | answer s =>
      rw [hp] at h
      injection h with h'
      subst h'
      exact (processTick_answer_inv hp).2
    | next st' =>
      rw [hp] at h
      exact ih h

theorem runLoop_answer_shape {rsp : Nat} {q : Str} :
    ∀ {ticks : List TickInput} {st : LoopState} {ans : Str},
      runLoop rsp q st ticks = some ans → ∃ cand, ans = trim cand ∧ trim cand ≠ [] := by
  intro ticks
  induction ticks with
  | nil => intro st ans h; cases h
  | cons t ts ih =>
    intro st ans h
    rw [runLoop_cons] at h
    cases hp : processTick rsp q st t with
    | answer s =>
      rw [hp] at h
      injection h with h'
      subst h'
      exact tickCandidate_some_inv (processTick_answer_inv hp).1
    | next st' =>
      rw [hp] at h
      exact ih h

theorem next_lastCandidate {rsp : Nat} {q : Str} {st : LoopState} {t : TickInput} {st' : LoopState}
    (h : processTick rsp q st t = .next st') :
    st'.lastCandidate =
      (match tickCandidate st t with
       | none => st.lastCandidate
       | some v => if toLowerStr v = q then st.lastCandidate else some v) := by
  cases hc : tickCandidate st t with
  | none =>
    rw [processTick_of_none hc] at h
    injection h with h'
    subst h'
    rfl
  | some v =>
    rw [processTick_of_some hc] at h
    unfold stepCandidate at h
    by_cases h1 : toLowerStr v = q
    · rw [if_pos h1] at h
      injection h with h'
      subst h'
      simp [h1]
    · rw [if_neg h1] at h
      by_cases h2 : st.lastCandidate = some v
      · rw [if_pos h2] at h
        by_cases h3 : st.stableCount + 1 ≥ rsp
        · rw [if_pos h3] at h; cases h
        · rw [if_neg h3] at h
          injection h with h'
          subst h'
          simp [h1, ← h2]
      · rw [if_neg h2] at h
        by_cases h3 : 1 ≥ rsp
        · rw [if_pos h3] at h; cases h
        · rw [if_neg h3] at h
          injection h with h'
          subst h'
          simp [h1]

theorem next_lastCandidate_none {rsp : Nat} {q : Str} {st : LoopState} {t : TickInput}
    {st' : LoopState}
    (h : processTick rsp q st t = .next st') (ho : tickCandidate st t = none) :
    st'.lastCandidate = st.lastCandidate := by
  have hh := next_lastCandidate h
  rw [ho] at hh
  exact hh

theorem next_lastCandidate_some {rsp : Nat} {q : Str} {st : LoopState} {t : TickInput}
    {st' : LoopState} {v : Str}
    (h : processTick rsp q st t = .next st') (ho : tickCandidate st t = some v) :
    st'.lastCandidate = if toLowerStr v = q then st.lastCandidate else some v := by
  have hh := next_lastCandidate h
  rw [ho] at hh
  exact hh

theorem obsList_split {rsp : Nat} {q : Str} :
    ∀ (pre : List (Option Str)) (st : LoopState) (ticks : List TickInput)
      (tail : List (Option Str)),
      obsList rsp q st ticks = pre ++ tail → tail ≠ [] →
      ∃ st' ticks',
        obsList rsp q st' ticks' = tail ∧
        st'.lastCandidate = lastCandAfter q st.lastCandidate pre ∧
        runLoop rsp q st ticks = runLoop rsp q st' ticks' := by
  intro pre
  induction pre with
  | nil =>
    intro st ticks tail h _
    exact ⟨st, ticks, by simpa using h, by simp [lastCandAfter], rfl⟩
  | cons o pre' ih =>
    intro st ticks tail h htail
    cases ticks with
    | nil => simp [obsList] at h
    | cons t ts =>
      rw [obsList_cons] at h
      cases hp : processTick rsp q st t with
      | answer s =>
        rw [hp] at h
        simp only [List.cons_append, List.cons.injEq] at h
        exact absurd (List.append_eq_nil.mp h.2.symm).2 htail
      | next st'' =>
        rw [hp] at h
        simp only [List.cons_append, List.cons.injEq] at h
        obtain ⟨ho, hrest⟩ := h
        obtain ⟨st', ticks', h1, h2, h3⟩ := ih st'' ts tail hrest htail
        refine ⟨st', ticks', h1, ?_, ?_⟩
        · rw [h2]
          show lastCandAfter q st''.lastCandidate pre' =
            lastCandAfter q st.lastCandidate (o :: pre')
          unfold lastCandAfter
          rw [List.foldl_cons]
          cases o with
          | none => rw [next_lastCandidate_none hp ho]
          | some v => rw [next_lastCandidate_some hp ho]
        · rw [runLoop_cons, hp]
          exact h3

theorem c1_block {q c : Str} {rsp : Nat} (hecho : ¬toLowerStr c = q) :
    ∀ (ticks : List TickInput) (m : Nat) (st : LoopState),
      1 ≤ m → st.lastCandidate = some c → st.stableCount + m = rsp →
      obsList rsp q st ticks = List.replicate m (some c) →
      runLoop rsp q st ticks = some c := by
  intro ticks
  induction ticks with
  | nil =>
    intro m st hm _ _ htr
    simp only [obsList] at htr
    rw [eq_comm, List.replicate_eq_nil_iff] at htr
    omega
  | cons t ts ih =>
    intro m st hm hlast hsum htr
    obtain ⟨m', rfl⟩ : ∃ m', m = m' + 1 := ⟨m - 1, by omega⟩
    rw [obsList_cons, List.replicate_succ] at htr
    simp only [List.cons.injEq] at htr
    obtain ⟨ho, hrest⟩ := htr
    have hpt := @processTick_of_some rsp q st t c ho
    by_cases hge : st.stableCount + 1 ≥ rsp
    · have hans : processTick rsp q st t = .answer c := by
        rw [hpt]
        unfold stepCandidate
        rw [if_neg hecho, if_pos hlast, if_pos hge]
      rw [runLoop_cons, hans]
    · have hnext : processTick rsp q st t =
          .next { st with stableCount := st.stableCount + 1 } := by
        rw [hpt]
        unfold stepCandidate
        rw [if_neg hecho, if_pos hlast, if_neg hge]
      rw [hnext] at hrest
      rw [runLoop_cons, hnext]
      exact ih m' _ (by omega) hlast (by simp; omega) hrest

theorem c1_first {q c : Str} {rsp : Nat} (hecho : ¬toLowerStr c = q) (hrsp : 1 ≤ rsp)
    (st : LoopState) (ticks : List TickInput)
    (hne : ¬st.lastCandidate = some c)
    (htr : obsList rsp q st ticks = List.replicate rsp (some c)) :
    runLoop rsp q st ticks = some c := by
  cases ticks with
  | nil =>
    simp only [obsList] at htr
    rw [eq_comm, List.replicate_eq_nil_iff] at htr
    omega
  | cons t ts =>
    obtain ⟨rsp', hr⟩ : ∃ r, rsp = r + 1 := ⟨rsp - 1, by omega⟩
    subst hr
    rw [obsList_cons, List.replicate_succ] at htr
    simp only [List.cons.injEq] at htr
    obtain ⟨ho, hrest⟩ := htr
    have hpt := @processTick_of_some (rsp' + 1) q st t c ho
    by_cases h1 : 1 ≥ rsp' + 1
    · have hans : processTick (rsp' + 1) q st t = .answer c := by
        rw [hpt]
        unfold stepCandidate
        rw [if_neg hecho, if_neg hne, if_pos h1]
      rw [runLoop_cons, hans]
    · have hnext : processTick (rsp' + 1) q st t =
          .next { st with lastCandidate := some c, stableCount := 1 } := by
        rw [hpt]
        unfold stepCandidate
        rw [if_neg hecho, if_neg hne, if_neg h1]
      rw [hnext] at hrest
      rw [runLoop_cons, hnext]
      exact c1_block hecho ts rsp' _ (by omega) rfl (by simp; omega) hrest

theorem scanPrimary_eq_firstUnseen (known : List Int) :
    ∀ containers : List ContainerRead,
      scanPrimary known containers =
        firstUnseenText known (containers.filterMap visibleContainerText) := by
  intro containers
  induction containers with
  | nil => rfl
  | cons c rest ih =>
    cases c with
    | error e =>
      simp only [scanPrimary, List.filterMap_cons, visibleContainerText, ih]
    | ok o =>
      cases o with
      | none =>
        simp only [scanPrimary, List.filterMap_cons, visibleContainerText, ih]
      | some t =>
        by_cases ht : trim t = []
        · simp only [scanPrimary, List.filterMap_cons, visibleContainerText,
            if_pos ht, ih]
        · by_cases hh : hashString (trim t) ∈ known
          · simp only [scanPrimary, List.filterMap_cons, visibleContainerText,
              if_neg ht, if_pos hh, ih, firstUnseenText]
            rw [List.find?_cons_of_neg]
            simp [hh]
          · simp only [scanPrimary, List.filterMap_cons, visibleContainerText,
              if_neg ht, if_neg hh, firstUnseenText]
            rw [List.find?_cons_of_pos]
            simp [hh]

/-! ## Claim theorems -/

/-- C9: `hashString` is deterministic — equal strings hash equally, so
hash-based dedup can only err by collision, never by missing an exact
repeat — and its result always lies in the signed 32-bit range, the
accumulator being coerced to 32 bits at every iteration (`hashStep`
applies `toInt32` to each update). -/
theorem hashString_deterministic_int32 (s t : Str) (h : s = t) :
    hashString s = hashString t ∧
    -2147483648 ≤ hashString s ∧ hashString s < 2147483648 := by
  subst h
  refine ⟨rfl, ?_⟩
  have key : ∀ (l : List Nat) (a : Int),
      -2147483648 ≤ a → a < 2147483648 →
      -2147483648 ≤ l.foldl hashStep a ∧ l.foldl hashStep a < 2147483648 := by
    intro l
    induction l with
    | nil => intro a h1 h2; exact ⟨h1, h2⟩
    | cons c cs ih =>
      intro a h1 h2
      have hr := toInt32_range (toInt32 (a * 32) - a + (c : Int))
      exact ih _ hr.1 hr.2
  simpa [hashString] using key (utf16Units s) 0 (by decide) (by decide)

/-- C9 witness. -/
theorem hashString_deterministic_int32_witness :
    hashString "abc".data = hashString "abc".data ∧
    -2147483648 ≤ hashString "abc".data ∧ hashString "abc".data < 2147483648 :=
  hashString_deterministic_int32 "abc".data "abc".data rfl

/-- C7: `ConnectionChecker.checkConnection` (the readiness gate; the spec
calls its auto-remediation flag `canAutoRemediate` and the host-process
flag `hostProcessRunning`, the code `canAutoAuth` and `chromeRunning`)
never reports `canAutoAuth = true` together with `chromeRunning = true`;
and with no valid credential and the host process detected running —
including the fail-safe case where a Windows probe error is assumed
running — the result is not ready, requires user action, and carries no
auto-remediation flag. -/
theorem connectionGate_no_autoremediation_while_running (authValid : Bool)
    (probe : ChromeProbe) :
    ¬((ConnectionChecker.checkConnection authValid probe).canAutoAuth = true ∧
      (ConnectionChecker.checkConnection authValid probe).chromeRunning = true) ∧
    (authValid = false → isChromeRunning probe = true →
      (ConnectionChecker.checkConnection authValid probe).isReady = false ∧
      (ConnectionChecker.checkConnection authValid probe).requiresUserAction = true ∧
      (ConnectionChecker.checkConnection authValid probe).canAutoAuth = false) := by
  cases authValid with
  | true => simp [ConnectionChecker.checkConnection]
  | false =>
    cases hr : isChromeRunning probe with
    | true => simp [ConnectionChecker.checkConnection, hr]
    | false => simp [ConnectionChecker.checkConnection, hr]

/-- C7 witness: no valid auth state, Chrome detected running. -/
theorem connectionGate_no_autoremediation_while_running_witness :
    (ConnectionChecker.checkConnection false macChromeRunningProbe).isReady = false ∧
    (ConnectionChecker.checkConnection false macChromeRunningProbe).requiresUserAction = true ∧
    (ConnectionChecker.checkConnection false macChromeRunningProbe).canAutoAuth = false :=
  (connectionGate_no_autoremediation_while_running false macChromeRunningProbe).2 rfl rfl

/-- C6: on a tick whose thinking indicator is reported visible, the loop
performs no extraction and continues with the state unchanged — the
outcome is `.next st` no matter what the tick's extraction input holds. -/
theorem thinking_tick_skips_extraction (rsp : Nat) (q : Str) (st : LoopState)
    (t : TickInput) (h : t.thinking = Except.ok (some true)) :
    processTick rsp q st t = .next st := by
  have hv : thinkingVisible t.thinking = true := by rw [h]; rfl
  simp [processTick, tickCandidate, hv]

/-- C6 witness. -/
theorem thinking_tick_skips_extraction_witness :
    processTick 3 [] (initState []) thinkingTick = .next (initState []) :=
  thinking_tick_skips_extraction 3 [] (initState []) thinkingTick rfl

/-- C5: when the primary container query succeeds, extraction scans the
visible answer containers in document order and returns the first text
whose content hash is not in the known-hash set; and whenever the number
of containers is at most the size of the known set, the scan is skipped
and the tick reports no candidate, whatever the containers hold. -/
theorem extractLatestText_first_unseen (known : List Int)
    (containers : List ContainerRead)
    (fbs : List (Except Unit (List (Except Unit Str))))
    (js : Except Unit (Option Str)) :
    (containers.length ≤ known.length →
      extractLatestText ⟨.ok containers, fbs, js⟩ known = none) ∧
    (known.length < containers.length →
      extractLatestText ⟨.ok containers, fbs, js⟩ known =
        firstUnseenText known (containers.filterMap visibleContainerText)) := by
  constructor
  · intro h
    simp [extractLatestText, h]
  · intro h
    have h' : ¬containers.length ≤ known.length := Nat.not_le.mpr h
    simp only [extractLatestText, if_neg h']
    exact scanPrimary_eq_firstUnseen known containers

/-- C5 witness: a two-container page with one known hash scans to the first
unseen text; a page with as many containers as known hashes is skipped. -/
theorem extractLatestText_first_unseen_witness :
    extractLatestText ⟨.ok [.ok (some "old".data), .ok (some "new".data)], [], .ok none⟩
        [hashString "old".data] =
      firstUnseenText [hashString "old".data]
        ([.ok (some "old".data), .ok (some "new".data)].filterMap visibleContainerText) ∧
    extractLatestText ⟨.ok [.ok (some "old".data)], [], .ok none⟩
        [hashString "old".data] = none :=
  ⟨(extractLatestText_first_unseen [hashString "old".data]
      [.ok (some "old".data), .ok (some "new".data)] [] (.ok none)).2 (by decide),
   (extractLatestText_first_unseen [hashString "old".data]
      [.ok (some "old".data)] [] (.ok none)).1 (by decide)⟩

/-- C2, evaluated at the failing input: with the known answer
"Paris is the capital." in `ignoreTexts` and a page that shows only that
text, reached through the `page.evaluate` fallback (primary query throws,
fallback selectors empty), `waitForLatestAnswer` returns the known text
after three stable polls instead of timing out — the final fallback never
consults the known-hash set (`page-utils.ts` lines 401-453). -/
theorem waitForLatestAnswer_returns_known_text :
    waitForLatestAnswer "What is the capital?".data [parisText] 3
      [c2Tick, c2Tick, c2Tick] = some parisText := by
  rfl

/-- C4 counterexample: a tick on which the adapter raises an error is not
always treated as producing no candidate.  On `busyErrTick` the
busy-indicator check throws, yet the tick still extracts a candidate; on
`primaryErrTick` the primary extraction path throws, yet a fallback
selector still yields a candidate on the same tick. -/
theorem tick_with_adapter_error_still_yields_candidate :
    busyErrTick.thinking = Except.error () ∧
    tickCandidate (initState []) busyErrTick = some "fresh".data ∧
    primaryErrTick.extract.primary = Except.error () ∧
    tickCandidate (initState []) primaryErrTick = some "fresh".data :=
  ⟨rfl, rfl, rfl, rfl⟩

/-- C4 amended: adapter errors are swallowed, never propagated (the
embedding is total: a run always terminates in an answer or the timeout
`none`), but an errored step only voids that step, not the whole tick: a
thrown busy-indicator check behaves exactly as "no indicator found" and
extraction still runs on that tick; a thrown primary query routes to the
fallback selectors and the `page.evaluate` fallback; a thrown container or
element read is skipped and the scan continues. -/
theorem adapter_errors_swallowed_per_step (rsp : Nat) (q : Str) (st : LoopState)
    (t : TickInput) (known : List Int) (cs : List ContainerRead)
    (es : List (Except Unit Str))
    (sels fbs : List (Except Unit (List (Except Unit Str))))
    (js : Except Unit (Option Str))
    (h : t.thinking = Except.error ()) :
    processTick rsp q st t = processTick rsp q st { t with thinking := Except.ok none } ∧
    extractLatestText ⟨.error (), fbs, js⟩ known =
      (match scanSelectors known fbs with
       | some u => some u
       | none => jsEvalText js) ∧
    scanPrimary known (.error () :: cs) = scanPrimary known cs ∧
    scanElems known (.error () :: es) = scanElems known es ∧
    scanSelectors known (.error () :: sels) = scanSelectors known sels := by
  refine ⟨?_, rfl, rfl, rfl, rfl⟩
  have hv : thinkingVisible t.thinking = false := by rw [h]; rfl
  have hv2 : thinkingVisible (Except.ok none : Except Unit (Option Bool)) = false := rfl
  simp [processTick, tickCandidate, hv, hv2]

/-- C4 amended witness. -/
theorem adapter_errors_swallowed_per_step_witness :
    processTick 3 [] (initState []) busyErrTick =
      processTick 3 [] (initState []) { busyErrTick with thinking := Except.ok none } :=
  (adapter_errors_swallowed_per_step 3 [] (initState []) busyErrTick [] [] [] [] []
    (.ok none) rfl).1

/-- C1: when the run's observation trace ends with N consecutive identical
observations of a text `c` that is not the question echo and differs from
the candidate last observed before the block (N = stability threshold,
default 3), the invocation returns `c` — and, the trace having exactly
`pre.length + N` entries, it returns at the Nth identical observation and
at no earlier poll.  Moreover any change of candidate resets the stability
count to 1 (or answers at once when the threshold is at most 1). -/
theorem stable_answer_returned_exactly_at_threshold (question : Str) (ig : List Str)
    (N : Nat) (ticks : List TickInput) (pre : List (Option Str)) (c : Str)
    (st : LoopState) (v : Str)
    (hN : 1 ≤ N)
    (htrace : obsList N (sanitizeQuestion question) (initState ig) ticks =
      pre ++ List.replicate N (some c))
    (hecho : ¬toLowerStr c = sanitizeQuestion question)
    (hnew : ¬lastCandAfter (sanitizeQuestion question) none pre = some c)
    (hv : ¬toLowerStr v = sanitizeQuestion question)
    (hvdiff : ¬st.lastCandidate = some v) :
    waitForLatestAnswer question ig N ticks = some c ∧
    (stepCandidate N (sanitizeQuestion question) st v =
        .next { st with lastCandidate := some v, stableCount := 1 } ∨
      (N ≤ 1 ∧ stepCandidate N (sanitizeQuestion question) st v = .answer v)) := by
  constructor
  · have hne : List.replicate N (some c) ≠ ([] : List (Option Str)) := by
      simp [List.replicate_eq_nil_iff]
      omega
    obtain ⟨st', ticks', h1, h2, h3⟩ :=
      obsList_split pre (initState ig) ticks _ htrace hne
    show runLoop N (sanitizeQuestion question) (initState ig) ticks = some c
    rw [h3]
    refine c1_first hecho hN st' ticks' ?_ h1
    rw [h2]
    exact hnew
  · by_cases h1 : 1 ≥ N
    · right
      refine ⟨h1, ?_⟩
      unfold stepCandidate
      rw [if_neg hv, if_neg hvdiff, if_pos h1]
    · left
      unfold stepCandidate
      rw [if_neg hv, if_neg hvdiff, if_neg h1]

/-- C1 witness: three consecutive identical observations of `ok` with
threshold 3 make the run return `ok`; a changed candidate resets the
stability count to 1. -/
theorem stable_answer_returned_exactly_at_threshold_witness :
    waitForLatestAnswer "q".data [] 3 sampleTicks = some "ok".data ∧
    (stepCandidate 3 (sanitizeQuestion "q".data)
        { known := [], lastCandidate := none, stableCount := 0 } "new".data =
        .next { ({ known := [], lastCandidate := none, stableCount := 0 } : LoopState) with
                  lastCandidate := some "new".data, stableCount := 1 } ∨
      (3 ≤ 1 ∧ stepCandidate 3 (sanitizeQuestion "q".data)
          { known := [], lastCandidate := none, stableCount := 0 } "new".data =
          .answer "new".data)) :=
  stable_answer_returned_exactly_at_threshold "q".data [] 3 sampleTicks [] "ok".data
    { known := [], lastCandidate := none, stableCount := 0 } "new".data
    (by decide) (by decide) (by decide) (by decide) (by decide) (by decide)

/-- C3: a polled text whose trimmed, lowercased form equals the sanitized
question is never returned as the answer — every returned answer differs
from the sanitized question in lowercased form — and a tick observing such
an echo only adds its hash to the known set and continues, leaving
`lastCandidate` and `stableCount` untouched. -/
theorem question_echo_never_returned (question : Str) (ig : List Str) (rsp : Nat)
    (ticks : List TickInput) (ans : Str) (st : LoopState) (t : TickInput) (v : Str)
    (hret : waitForLatestAnswer question ig rsp ticks = some ans)
    (hcand : tickCandidate st t = some v)
    (hecho : toLowerStr v = sanitizeQuestion question) :
    ¬toLowerStr ans = sanitizeQuestion question ∧
    processTick rsp (sanitizeQuestion question) st t =
      .next { st with known := insertHash st.known (hashString v) } := by
  constructor
  · exact runLoop_answer_not_echo hret
  · rw [processTick_of_some hcand, stepCandidate_echo st hecho]

/-- C3 witness: a run for question `hi` returning `ok`, and an echo tick
showing `hi` that is absorbed into the known set. -/
theorem question_echo_never_returned_witness :
    ¬toLowerStr "ok".data = sanitizeQuestion "hi".data ∧
    processTick 3 (sanitizeQuestion "hi".data)
        { known := [], lastCandidate := none, stableCount := 0 } echoTick =
      .next { ({ known := [], lastCandidate := none, stableCount := 0 } : LoopState) with
                known := insertHash [] (hashString "hi".data) } :=
  question_echo_never_returned "hi".data [] 3 sampleTicks "ok".data
    { known := [], lastCandidate := none, stableCount := 0 } echoTick "hi".data
    (by decide) (by decide) (by decide)

/-- C10: whenever `waitForLatestAnswer` returns a string rather than the
timeout signal, that string is nonempty and already trimmed (no leading or
trailing whitespace): every candidate is trimmed before the stability
comparison and before being returned. -/
theorem waitForLatestAnswer_result_trimmed (question : Str) (ig : List Str)
    (rsp : Nat) (ticks : List TickInput) (ans : Str)
    (h : waitForLatestAnswer question ig rsp ticks = some ans) :
    ans ≠ [] ∧ trim ans = ans := by
  obtain ⟨cand, rfl, hne⟩ := runLoop_answer_shape h
  exact ⟨hne, trim_trim cand⟩

/-- C10 witness. -/
theorem waitForLatestAnswer_result_trimmed_witness :
    "ok".data ≠ ([] : Str) ∧ trim "ok".data = "ok".data :=
  waitForLatestAnswer_result_trimmed "q".data [] 3 sampleTicks "ok".data (by decide)

theorem minByActivity_mem : ∀ (l : List Session) (a : Session),
    minByActivity a l = a ∨ minByActivity a l ∈ l := by
  intro l
  induction l with
  | nil => intro a; exact Or.inl rfl
  | cons b bs ih =>
    intro a
    have hrw : minByActivity a (b :: bs) =
        minByActivity (if b.lastActivityAt < a.lastActivityAt then b else a) bs := rfl
    rw [hrw]
    rcases ih (if b.lastActivityAt < a.lastActivityAt then b else a) with h | h
    · rw [h]
      by_cases hb : b.lastActivityAt < a.lastActivityAt
      · right
        simp [hb]
      · left
        simp [hb]
    · right
      exact List.mem_cons_of_mem _ h

theorem minByActivity_le : ∀ (l : List Session) (a : Session),
    (minByActivity a l).lastActivityAt ≤ a.lastActivityAt ∧
    ∀ s ∈ l, (minByActivity a l).lastActivityAt ≤ s.lastActivityAt := by
  intro l
  induction l with
  | nil =>
    intro a
    exact ⟨Nat.le_refl _, by simp⟩
  | cons b bs ih =>
    intro a
    have hrw : minByActivity a (b :: bs) =
        minByActivity (if b.lastActivityAt < a.lastActivityAt then b else a) bs := rfl
    obtain ⟨h1, h2⟩ := ih (if b.lastActivityAt < a.lastActivityAt then b else a)
    have hmin : (if b.lastActivityAt < a.lastActivityAt then b else a).lastActivityAt ≤
        a.lastActivityAt ∧
        (if b.lastActivityAt < a.lastActivityAt then b else a).lastActivityAt ≤
        b.lastActivityAt := by
      by_cases hb : b.lastActivityAt < a.lastActivityAt
      · simp [hb]
        omega
      · simp [hb]
        omega
    constructor
    · rw [hrw]
      exact Nat.le_trans h1 hmin.1
    · intro s hs
      rcases List.mem_cons.mp hs with rfl | hs'
      · rw [hrw]
        exact Nat.le_trans h1 hmin.2
      · rw [hrw]
        exact h2 s hs'

theorem lraIdle_spec {ss : List Session} {v : Session} (h : lraIdle ss = some v) :
    v ∈ ss ∧ v.inFlight = false ∧
    ∀ s ∈ ss, s.inFlight = false → v.lastActivityAt ≤ s.lastActivityAt := by
  unfold lraIdle at h
  cases hf : ss.filter (fun s => !s.inFlight) with
  | nil => rw [hf] at h; cases h
  | cons a rest =>
    rw [hf] at h
    injection h with hv
    subst hv
    have hmem : minByActivity a rest ∈ a :: rest := by
      rcases minByActivity_mem rest a with h' | h'
      · rw [h']
        exact List.mem_cons_self a rest
      · exact List.mem_cons_of_mem _ h'
    have hmem' : minByActivity a rest ∈ ss.filter (fun s => !s.inFlight) := by
      rw [hf]
      exact hmem
    have hmf := List.mem_filter.mp hmem'
    refine ⟨hmf.1, by simpa using hmf.2, ?_⟩
    intro s hs hsf
    have hsmem : s ∈ a :: rest := by
      rw [← hf]
      exact List.mem_filter.mpr ⟨hs, by simp [hsf]⟩
    obtain ⟨h1, h2⟩ := minByActivity_le rest a
    rcases List.mem_cons.mp hsmem with rfl | hs'
    · exact h1
    · exact h2 s hs'

/-- C8: with at most `capacity` live sessions, `resolve` never exceeds the
capacity; a fresh id at capacity evicts exactly one session — the
globally-least-recently-active idle one — leaving exactly `capacity` live
sessions; and when no session is evictable (all mid-question) the request
fails with a capacity error instead of exceeding the capacity. -/
theorem registry_never_exceeds_capacity (reg : Registry) (i tr now : Nat)
    (hcap : reg.sessions.length ≤ reg.capacity) :
    (∀ reg' s, SessionRegistry.resolve reg i tr now = .ok (reg', s) →
      reg'.sessions.length ≤ reg.capacity) ∧
    (reg.sessions.find? (fun s => s.id == i) = none →
      reg.sessions.length = reg.capacity →
      (∀ v, lraIdle reg.sessions = some v →
        SessionRegistry.resolve reg i tr now =
          .ok ({ reg with sessions :=
                   (reg.sessions.eraseP (fun s => s.id == v.id)) ++ [mkSession i tr now] },
               mkSession i tr now) ∧
        v ∈ reg.sessions ∧ v.inFlight = false ∧
        (∀ s ∈ reg.sessions, s.inFlight = false → v.lastActivityAt ≤ s.lastActivityAt) ∧
        ((reg.sessions.eraseP (fun s => s.id == v.id)) ++ [mkSession i tr now]).length =
          reg.capacity) ∧
      (lraIdle reg.sessions = none →
        SessionRegistry.resolve reg i tr now = .error ())) := by
  constructor
  · intro reg' s h
    unfold SessionRegistry.resolve at h
    cases hf : reg.sessions.find? (fun s => s.id == i) with
    | some s0 =>
      rw [hf] at h
      injection h with h'
      injection h' with h1 h2
      subst h1
      exact hcap
    | none =>
      rw [hf] at h
      by_cases hlt : reg.sessions.length < reg.capacity
      · rw [if_pos hlt] at h
        injection h with h'
        injection h' with h1 h2
        subst h1
        simp
        omega
      · rw [if_neg hlt] at h
        cases hl : lraIdle reg.sessions with
        | none => rw [hl] at h; cases h
        | some w =>
          rw [hl] at h
          injection h with h'
          injection h' with h1 h2
          subst h1
          obtain ⟨hw, -, -⟩ := lraIdle_spec hl
          have he : (reg.sessions.eraseP (fun s => s.id == w.id)).length =
              reg.sessions.length - 1 :=
            List.length_eraseP_of_mem hw (by simp)
          have hpos : 1 ≤ reg.sessions.length := List.length_pos.mpr (by
            intro hnil
            rw [hnil] at hw
            cases hw)
          simp [he]
          omega
  · intro hf hlen
    constructor
    · intro v hl
      obtain ⟨hv, hflight, hmin⟩ := lraIdle_spec hl
      have hres : SessionRegistry.resolve reg i tr now =
          .ok ({ reg with sessions :=
                   (reg.sessions.eraseP (fun s => s.id == v.id)) ++ [mkSession i tr now] },
               mkSession i tr now) := by
        unfold SessionRegistry.resolve
        rw [hf, if_neg (by omega), hl]
      refine ⟨hres, hv, hflight, hmin, ?_⟩
      have he : (reg.sessions.eraseP (fun s => s.id == v.id)).length =
          reg.sessions.length - 1 :=
        List.length_eraseP_of_mem hv (by simp)
      have hpos : 1 ≤ reg.sessions.length := List.length_pos.mpr (by
        intro hnil
        rw [hnil] at hv
        cases hv)
      simp [he]
      omega
    · intro hl
      unfold SessionRegistry.resolve
      rw [hf, if_neg (by omega), hl]

/-- C8 witness: a full registry of two idle sessions evicts the
least-recently-active one for a fresh id; a full registry of mid-question
sessions fails with a capacity error. -/
theorem registry_never_exceeds_capacity_witness :
    SessionRegistry.resolve regFull 7 0 10 =
      .ok ({ regFull with sessions :=
               (regFull.sessions.eraseP (fun s => s.id == sessB.id)) ++ [mkSession 7 0 10] },
           mkSession 7 0 10) ∧
    SessionRegistry.resolve regBusy 7 0 10 = .error () :=
  ⟨(((registry_never_exceeds_capacity regFull 7 0 10 (by decide)).2 (by decide)
      (by decide)).1 sessB (by decide)).1,
   ((registry_never_exceeds_capacity regBusy 7 0 10 (by decide)).2 (by decide)
      (by decide)).2 (by decide)⟩

end NotebookLM
